import Mathlib

/-! Verification development for the Tezos authorization token core
(src/tz.rs of the kepler repository): the wire parser, the canonical
encoder and its binary envelope, the signature-verification glue and the
orbit authorization gate.  Rust strings are modelled as lists of
characters and byte buffers as lists of naturals below 256; fallible
operations return Option or Except. -/

namespace Kepler

/-- The space character, the only delimiter of the wire grammar. -/
def sp : Char := Char.ofNat 32

/-- Modelled from the spec: the action payload model of crate::auth (that
file is not among the sources shown); a closed set of five variants, four
of which carry an ordered sequence of content identifiers (spec section 3). -/
inductive Action where
  | List : Action
  | Get : List (List Char) → Action
  | Put : List (List Char) → Action
  | Del : List (List Char) → Action
  | Create : List (List Char) → Action
deriving DecidableEq

/-- Modelled from the spec: the orbit identifier of crate::resource is an
external type of which this core uses only parse-from-string and the
canonical string form, which must round-trip (spec section 6); modelled as
a wrapper around that canonical string. -/
structure OrbitId where
  raw : List Char
deriving DecidableEq

/-- Modelled from the spec: the external orbit-identifier parser. -/
def OrbitId.parse (s : List Char) : Option OrbitId := some ⟨s⟩

/-- Modelled from the spec: the canonical string form of an orbit identifier. -/
def OrbitId.toStr (o : OrbitId) : List Char := o.raw

/-- The parsed authorization token, with the field order of the Rust
struct TezosAuthorizationString. -/
structure TezosAuthorizationString where
  sig : List Char
  domain : List Char
  pk : List Char
  pkh : List Char
  timestamp : List Char
  orbit : OrbitId
  action : Action
deriving DecidableEq

/-- nom tag: consume the exact given characters at the front, returning
(remaining, matched) on success, where matched equals the tag. -/
def tagP : List Char → List Char → Option (List Char × List Char)
  | [], s => some (s, [])
  | _ :: _, [] => none
  | t :: ts, c :: cs =>
    if t = c then (tagP ts cs).map (fun p => (p.1, t :: p.2)) else none

/-- nom take_until " ": text up to but excluding the next space; fails when
no space remains. -/
def takeUntilSpace (s : List Char) : Option (List Char × List Char) :=
  if sp ∈ s then
    some (s.dropWhile (fun c => !(c == sp)), s.takeWhile (fun c => !(c == sp)))
  else none

/-- space_delimit from tz.rs: preceded(tag(" "), take_until(" ")). -/
def space_delimit (s : List Char) : Option (List Char × List Char) :=
  match tagP [sp] s with
  | none => none
  | some (r, _) => takeUntilSpace r

def kwGET : List Char := ['G', 'E', 'T']
def kwPUT : List Char := ['P', 'U', 'T']
def kwDEL : List Char := ['D', 'E', 'L']
def kwCREATE : List Char := ['C', 'R', 'E', 'A', 'T', 'E']
def kwLIST : List Char := ['L', 'I', 'S', 'T']

/-- nom many1(space_delimit), with explicit fuel; each successful step of
space_delimit consumes at least one character, so fuel equal to the input
length is always sufficient.  Returns (remaining, captured words); the
many1 caller fails when the word list is empty. -/
def manySD : Nat → List Char → List Char × List (List Char)
  | 0, s => (s, [])
  | f + 1, s =>
    match space_delimit s with
    | none => (s, [])
    | some (r, w) =>
      let p := manySD f r
      (p.1, w :: p.2)

/-- parse_get from tz.rs: tag("GET") then many1(space_delimit). -/
def parse_get (s : List Char) : Option (List Char × Action) :=
  match tagP kwGET s with
  | none => none
  | some (r, _) =>
    match manySD r.length r with
    | (_, []) => none
    | (rr, w :: ws) => some (rr, Action.Get (w :: ws))

/-- parse_put from tz.rs. -/
def parse_put (s : List Char) : Option (List Char × Action) :=
  match tagP kwPUT s with
  | none => none
  | some (r, _) =>
    match manySD r.length r with
    | (_, []) => none
    | (rr, w :: ws) => some (rr, Action.Put (w :: ws))

/-- parse_del from tz.rs. -/
def parse_del (s : List Char) : Option (List Char × Action) :=
  match tagP kwDEL s with
  | none => none
  | some (r, _) =>
    match manySD r.length r with
    | (_, []) => none
    | (rr, w :: ws) => some (rr, Action.Del (w :: ws))

/-- parse_create from tz.rs. -/
def parse_create (s : List Char) : Option (List Char × Action) :=
  match tagP kwCREATE s with
  | none => none
  | some (r, _) =>
    match manySD r.length r with
    | (_, []) => none
    | (rr, w :: ws) => some (rr, Action.Create (w :: ws))

/-- parse_list from tz.rs.  The source maps the nom result with the
pattern (_, rest), but nom returns (remaining, matched); the source
therefore propagates the matched tag text as the remaining input, and this
model mirrors that faithfully. -/
def parse_list (s : List Char) : Option (List Char × Action) :=
  match tagP kwLIST s with
  | none => none
  | some (_, m) => some (m, Action.List)

/-- parse_action from tz.rs: alt((get, put, del, create, list)). -/
def parse_action (s : List Char) : Option (List Char × Action) :=
  match parse_get s with
  | some p => some p
  | none =>
    match parse_put s with
    | some p => some p
    | none =>
      match parse_del s with
      | some p => some p
      | none =>
        match parse_create s with
        | some p => some p
        | none => parse_list s

/-- The fixed message tag of the wire grammar. -/
def msgTag : List Char := "Tezos Signed Message:".toList

/-- FromStr for TezosAuthorizationString, following the nom tuple of
tz.rs: the fixed tag, five space-delimited fields (domain, timestamp, pk,
pkh, orbit), a space, the action, a space; the remaining input is the
signature, and the orbit field text is then parsed by the external orbit
identifier type. -/
def TezosAuthorizationString.from_str (s : List Char) :
    Option TezosAuthorizationString :=
  match tagP msgTag s with
  | none => none
  | some (r0, _) =>
    match space_delimit r0 with
    | none => none
    | some (r1, d) =>
      match space_delimit r1 with
      | none => none
      | some (r2, ts) =>
        match space_delimit r2 with
        | none => none
        | some (r3, pk) =>
          match space_delimit r3 with
          | none => none
          | some (r4, kh) =>
            match space_delimit r4 with
            | none => none
            | some (r5, ob) =>
              match tagP [sp] r5 with
              | none => none
              | some (r6, _) =>
                match parse_action r6 with
                | none => none
                | some (r7, act) =>
                  match tagP [sp] r7 with
                  | none => none
                  | some (sg, _) =>
                    match OrbitId.parse ob with
                    | none => none
                    | some o => some ⟨sg, d, pk, kh, ts, o, act⟩

/-- content.join(" "): the items separated by single spaces. -/
def joinSpace : List (List Char) → List Char
  | [] => []
  | [w] => w
  | w :: ws => w ++ sp :: joinSpace ws

/-- serialize_content_action from tz.rs: [verb, content.join(" ")].join(" "). -/
def serialize_content_action (v : List Char) (c : List (List Char)) : List Char :=
  v ++ sp :: joinSpace c

/-- serialize_action from tz.rs. -/
def serialize_action : Action → List Char
  | Action.Put c => serialize_content_action kwPUT c
  | Action.Get c => serialize_content_action kwGET c
  | Action.Del c => serialize_content_action kwDEL c
  | Action.List => kwLIST
  | Action.Create c => kwCREATE ++ sp :: joinSpace c

/-- TezosAuthorizationString::serialize: the canonical string that is
signed; the signature field does not participate. -/
def TezosAuthorizationString.serialize (t : TezosAuthorizationString) : List Char :=
  "Tezos Signed Message: ".toList ++ t.domain ++ sp :: t.timestamp ++
    sp :: t.pk ++ sp :: t.pkh ++ sp :: OrbitId.toStr t.orbit ++
    sp :: serialize_action t.action

/-- The Display implementation: the canonical string followed by a space
and the signature text; this is the full wire form. -/
def TezosAuthorizationString.display (t : TezosAuthorizationString) : List Char :=
  "Tezos Signed Message: ".toList ++ t.domain ++ sp :: t.timestamp ++
    sp :: t.pk ++ sp :: t.pkh ++ sp :: OrbitId.toStr t.orbit ++
    sp :: (serialize_action t.action ++ sp :: t.sig)

/-- One lowercase hexadecimal digit, as produced by the format machinery
and by hex::encode. -/
def hexDigit (n : Nat) : Char :=
  if n < 10 then Char.ofNat (48 + n) else Char.ofNat (87 + n)

/-- The value of one hexadecimal digit character, as accepted by
hex::decode; any other character is a decode error. -/
def hexVal (c : Char) : Option Nat :=
  if 48 ≤ c.toNat ∧ c.toNat ≤ 57 then some (c.toNat - 48)
  else if 97 ≤ c.toNat ∧ c.toNat ≤ 102 then some (c.toNat - 87)
  else if 65 ≤ c.toNat ∧ c.toNat ≤ 70 then some (c.toNat - 55)
  else none

/-- hex::encode: two lowercase hexadecimal digits per byte. -/
def hexEncode : List Nat → List Char
  | [] => []
  | x :: xs => hexDigit (x / 16) :: hexDigit (x % 16) :: hexEncode xs

/-- hex::decode: consume the digits two at a time; fails on an odd number
of characters or a non-digit. -/
def hexDecode : List Char → Option (List Nat)
  | [] => some []
  | [_] => none
  | c1 :: c2 :: rest =>
    match hexVal c1, hexVal c2, hexDecode rest with
    | some x, some y, some tl => some ((16 * x + y) :: tl)
    | _, _, _ => none

/-- The hexadecimal digits of n, most significant first, empty for 0; the
fuel argument bounds the recursion and n itself always suffices. -/
def natToHexAux : Nat → Nat → List Char
  | 0, _ => []
  | f + 1, n =>
    if n = 0 then [] else natToHexAux f (n / 16) ++ [hexDigit (n % 16)]

def natToHex (n : Nat) : List Char := natToHexAux n n

/-- The format specifier {:08x}: lowercase hexadecimal, zero-padded on the
left to a minimum width of eight digits. -/
def toHexPad8 (n : Nat) : List Char :=
  List.replicate (8 - (natToHex n).length) '0' ++ natToHex n

/-- encode_string from tz.rs, at the byte level: hex-decode the
concatenation of "0501", the {:08x} rendering of the byte length and the
hex encoding of the bytes.  The source unwraps the result; the none case
models the panic of that unwrap. -/
def encode_string (b : List Nat) : Option (List Nat) :=
  hexDecode ("0501".toList ++ toHexPad8 b.length ++ hexEncode b)

/-- Exactly k bytes of n, big-endian (helper for stating the envelope). -/
def beBytes : Nat → Nat → List Nat
  | 0, _ => []
  | k + 1, n => beBytes k (n / 256) ++ [n % 256]

/-- Fixed-width hexadecimal digits of n, most significant first (helper
connecting the padded format output with the big-endian bytes). -/
def hexPad : Nat → Nat → List Char
  | 0, _ => []
  | k + 1, n => hexPad k (n / 16) ++ [hexDigit (n % 16)]

/-- The UTF-8 bytes of one character. -/
def utf8Char (c : Char) : List Nat :=
  let n := c.toNat
  if n < 128 then [n]
  else if n < 2048 then [192 + n / 64, 128 + n % 64]
  else if n < 65536 then [224 + n / 4096, 128 + n / 64 % 64, 128 + n % 64]
  else [240 + n / 262144, 128 + n / 4096 % 64, 128 + n / 64 % 64, 128 + n % 64]

/-- The UTF-8 bytes of a string. -/
def utf8Bytes (s : List Char) : List Nat := (s.map utf8Char).flatten

/-- serialize_for_verification: the binary envelope of the canonical
string; these are the bytes handed to signature verification. -/
def TezosAuthorizationString.serialize_for_verification
    (t : TezosAuthorizationString) : Option (List Nat) :=
  encode_string (utf8Bytes t.serialize)

/-- The error taxonomy visible in tz.rs (anyhow messages and propagated
collaborator failures), spec section 7. -/
inductive Err where
  | invalidKey : Err
  | invalidSignature : Err
  | invalidSignatureScheme : Err
  | signatureMismatch : Err
  | notAuthorized : Err
  | encodingFailure : Err
deriving DecidableEq

/-- Modelled from the spec: a JSON Web Key as derived from the Tezos key
text; this core inspects only whether it carries an algorithm. -/
structure JWK where
  algorithm : Option (List Char)
deriving DecidableEq

/-- Modelled from the spec: the external signing/verification capability
(ssi), spec section 6: key derivation from text, signature decoding from
text, and byte verification. -/
structure SigCap where
  jwk_from_tezos_key : List Char → Except Err JWK
  decode_tzsig : List Char → Except Err (List Char × List Nat)
  verify_bytes : List Char → List Nat → JWK → List Nat → Except Err Unit

/-- TezosAuthorizationString::verify, parameterised by the external
capability: derive the key, decode the signature, require an algorithm
(else the Invalid Signature Scheme error), build the bytes to sign, then
delegate to byte verification. -/
def TezosAuthorizationString.verify (cap : SigCap)
    (t : TezosAuthorizationString) : Except Err Unit :=
  match cap.jwk_from_tezos_key t.pk with
  | Except.error e => Except.error e
  | Except.ok key =>
    match cap.decode_tzsig t.sig with
    | Except.error e => Except.error e
    | Except.ok (_, sigBytes) =>
      match key.algorithm with
      | none => Except.error Err.invalidSignatureScheme
      | some alg =>
        match t.serialize_for_verification with
        | none => Except.error Err.encodingFailure
        | some msg => cap.verify_bytes alg msg key sigBytes

/-- Modelled from the spec: the DID URL identity notation used by the
authorization directory (method tag, key-hash, optional fragment); field
layout follows the external DIDURL type with its defaulted path and query. -/
structure DIDURL where
  did : List Char
  path_abempty : List Char
  query : Option (List Char)
  fragment : Option (List Char)
deriving DecidableEq

/-- Modelled from the spec: the orbit manifest, acting as the
authorization directory for its orbit: it exposes the set of controller
(invoker) identities. -/
structure Manifest where
  invokers : List DIDURL

/-- AuthorizationPolicy::authorize for Manifest: build the requester DID
URL from the fixed did:pkh:tz: prefix, the token key-hash and the
TezosMethod2021 fragment; deny unless it is an invoker, else verify. -/
def Manifest.authorize (m : Manifest) (cap : SigCap)
    (t : TezosAuthorizationString) : Except Err Unit :=
  let requester : DIDURL :=
    ⟨"did:pkh:tz:".toList ++ t.pkh, [], none, some "TezosMethod2021".toList⟩
  if requester ∉ m.invokers then Except.error Err.notAuthorized
  else t.verify cap

/-- Modelled from the spec: the rocket request outcome at the transport
boundary. -/
inductive Outcome (α : Type) where
  | success : α → Outcome α
  | failure : Err → Outcome α
  | forward : Outcome α
deriving DecidableEq

/-- FromRequest for TezosAuthorizationString: parse the Authorization
header when present; absence or a parse failure forwards to the next
scheme, never a hard failure. -/
def from_request (header : Option (List Char)) :
    Outcome TezosAuthorizationString :=
  match header.map TezosAuthorizationString.from_str with
  | some (some t) => Outcome.success t
  | _ => Outcome.forward

/-- Payload predicate satisfied by every action a successful parse can
produce: many1 yields at least one item for the four content actions. -/
def parsedActionOK : Action → Prop
  | Action.Get c => c ≠ []
  | Action.Put c => c ≠ []
  | Action.Del c => c ≠ []
  | Action.Create c => c ≠ []
  | Action.List => True

/-- An empty content payload on a content-carrying action (the documented
encoder edge case, spec section 9). -/
def emptyPayload : Action → Prop
  | Action.Get c => c = []
  | Action.Put c => c = []
  | Action.Del c => c = []
  | Action.Create c => c = []
  | Action.List => False

/-- A concrete token whose action is List. -/
def exListToken : TezosAuthorizationString :=
  ⟨"sig".toList, "kepler.net".toList, "pk".toList, "pkh".toList,
    "2021".toList, ⟨"orbit".toList⟩, Action.List⟩

/-- A concrete token whose action carries an empty payload. -/
def exEmptyPut : TezosAuthorizationString :=
  ⟨"sig".toList, "d".toList, "pk".toList, "pkh".toList, "ts".toList,
    ⟨"ob".toList⟩, Action.Put []⟩

/-- The token the parser actually recovers from the display form of
exEmptyPut: the double space produced by the encoder is read back as one
empty content item. -/
def exEmptyPutParsed : TezosAuthorizationString :=
  ⟨"sig".toList, "d".toList, "pk".toList, "pkh".toList, "ts".toList,
    ⟨"ob".toList⟩, Action.Put [[]]⟩

/-- A concrete well-formed token used by witnesses. -/
def exToken : TezosAuthorizationString :=
  ⟨"sig".toList, "kepler.net".toList, "pk".toList, "pkh".toList,
    "2021".toList, ⟨"orbit".toList⟩, Action.Put ["cid".toList]⟩

/-- A concrete capability whose key derivation yields a key without an
algorithm and whose byte verification accepts. -/
def capOkNoAlg : SigCap :=
  ⟨fun _ => Except.ok ⟨none⟩, fun _ => Except.ok ([], []),
    fun _ _ _ _ => Except.ok ()⟩

/-- As capOkNoAlg but with a byte verification that rejects. -/
def capRejectNoAlg : SigCap :=
  ⟨fun _ => Except.ok ⟨none⟩, fun _ => Except.ok ([], []),
    fun _ _ _ _ => Except.error Err.signatureMismatch⟩

/-- The requester identity authorize derives for exToken. -/
def exRequester : DIDURL :=
  ⟨"did:pkh:tz:".toList ++ "pkh".toList, [], none, some "TezosMethod2021".toList⟩

theorem tagP_self_append (t r : List Char) : tagP t (t ++ r) = some (r, t) := by
  induction t with
  | nil => rfl
  | cons c cs ih => simp [tagP, ih]

theorem tagP_sp_cons (r : List Char) : tagP [sp] (sp :: r) = some (r, [sp]) := by
  simp [tagP]

theorem tagP_sound {t s r m : List Char} (h : tagP t s = some (r, m)) :
    s = t ++ r := by
  induction t generalizing s r m with
  | nil =>
    simp only [tagP, Option.some.injEq, Prod.mk.injEq] at h
    simp [h.1]
  | cons c cs ih =>
    cases s with
    | nil => simp [tagP] at h
    | cons x xs =>
      simp only [tagP] at h
      split at h
      · rename_i hc
        cases hm : tagP cs xs with
        | none => rw [hm] at h; cases h
        | some p =>
          rw [hm] at h
          simp only [Option.map_some', Option.some.injEq, Prod.mk.injEq] at h
          have hxs : xs = cs ++ p.1 := ih hm
          rw [List.cons_append, ← hc, hxs, h.1]
      · cases h

theorem tagP_none_of_no_split {t s : List Char} (h : ∀ r, s ≠ t ++ r) :
    tagP t s = none := by
  cases hm : tagP t s with
  | none => rfl
  | some p => exact absurd (tagP_sound hm) (h p.1)

theorem tagP_ne_head {t c : Char} {ts cs : List Char} (h : t ≠ c) :
    tagP (t :: ts) (c :: cs) = none := by
  simp [tagP, h]

theorem ne_append_of_head {x y : Char} {xs ys r : List Char} (h : x ≠ y) :
    x :: xs ≠ (y :: ys) ++ r := by
  intro hh
  rw [List.cons_append] at hh
  injection hh with h1 _
  exact h h1

theorem takeWhile_append_sp {w : List Char} (hw : sp ∉ w) (r : List Char) :
    (w ++ sp :: r).takeWhile (fun c => !(c == sp)) = w := by
  induction w with
  | nil => simp
  | cons c cs ih =>
    have hc : ¬(c = sp) := fun hh => hw (hh ▸ List.mem_cons_self c cs)
    have hcs : sp ∉ cs := fun hmem => hw (List.mem_cons_of_mem _ hmem)
    simp [List.takeWhile_cons, hc, ih hcs]

theorem dropWhile_append_sp {w : List Char} (hw : sp ∉ w) (r : List Char) :
    (w ++ sp :: r).dropWhile (fun c => !(c == sp)) = sp :: r := by
  induction w with
  | nil => simp
  | cons c cs ih =>
    have hc : ¬(c = sp) := fun hh => hw (hh ▸ List.mem_cons_self c cs)
    have hcs : sp ∉ cs := fun hmem => hw (List.mem_cons_of_mem _ hmem)
    simp [List.dropWhile_cons, hc, ih hcs]

theorem space_delimit_step {w r : List Char} (hw : sp ∉ w) :
    space_delimit (sp :: (w ++ sp :: r)) = some (sp :: r, w) := by
  have hmem : sp ∈ w ++ sp :: r := by simp
  simp [space_delimit, tagP, takeUntilSpace, hmem,
    takeWhile_append_sp hw, dropWhile_append_sp hw]

theorem manySD_none {s : List Char} (f : Nat) (h : space_delimit s = none) :
    manySD f s = (s, []) := by
  cases f <;> simp [manySD, h]

theorem from_str_fields {d ts pk kh ob : List Char} (rest : List Char)
    (hd : sp ∉ d) (hts : sp ∉ ts) (hpk : sp ∉ pk) (hkh : sp ∉ kh)
    (hob : sp ∉ ob) :
    TezosAuthorizationString.from_str
      (msgTag ++ sp :: (d ++ sp :: (ts ++ sp :: (pk ++ sp ::
        (kh ++ sp :: (ob ++ sp :: rest)))))) =
      match parse_action rest with
      | none => none
      | some (r7, act) =>
        match tagP [sp] r7 with
        | none => none
        | some (sg, _) =>
          match OrbitId.parse ob with
          | none => none
          | some o => some ⟨sg, d, pk, kh, ts, o, act⟩ := by
  simp only [TezosAuthorizationString.from_str, tagP_self_append,
    space_delimit_step hd, space_delimit_step hts, space_delimit_step hpk,
    space_delimit_step hkh, space_delimit_step hob, tagP_sp_cons]

theorem parse_get_shape {s r : List Char} {a : Action}
    (h : parse_get s = some (r, a)) : ∃ w ws, a = Action.Get (w :: ws) := by
  unfold parse_get at h
  split at h
  · cases h
  · split at h
    · cases h
    · rename_i rr w ws heq
      simp only [Option.some.injEq, Prod.mk.injEq] at h
      exact ⟨w, ws, h.2.symm⟩

theorem parse_put_shape {s r : List Char} {a : Action}
    (h : parse_put s = some (r, a)) : ∃ w ws, a = Action.Put (w :: ws) := by
  unfold parse_put at h
  split at h
  · cases h
  · split at h
    · cases h
    · rename_i rr w ws heq
      simp only [Option.some.injEq, Prod.mk.injEq] at h
      exact ⟨w, ws, h.2.symm⟩

theorem parse_del_shape {s r : List Char} {a : Action}
    (h : parse_del s = some (r, a)) : ∃ w ws, a = Action.Del (w :: ws) := by
  unfold parse_del at h
  split at h
  · cases h
  · split at h
    · cases h
    · rename_i rr w ws heq
      simp only [Option.some.injEq, Prod.mk.injEq] at h
      exact ⟨w, ws, h.2.symm⟩

theorem parse_create_shape {s r : List Char} {a : Action}
    (h : parse_create s = some (r, a)) : ∃ w ws, a = Action.Create (w :: ws) := by
  unfold parse_create at h
  split at h
  · cases h
  · split at h
    · cases h
    · rename_i rr w ws heq
      simp only [Option.some.injEq, Prod.mk.injEq] at h
      exact ⟨w, ws, h.2.symm⟩

theorem parse_list_shape {s r : List Char} {a : Action}
    (h : parse_list s = some (r, a)) : a = Action.List := by
  unfold parse_list at h
  split at h
  · cases h
  · simp only [Option.some.injEq, Prod.mk.injEq] at h
    exact h.2.symm

theorem parse_action_ok {s r : List Char} {a : Action}
    (h : parse_action s = some (r, a)) : parsedActionOK a := by
  unfold parse_action at h
  split at h
  · rename_i p heq
    injection h with h2
    subst h2
    obtain ⟨w, ws, rfl⟩ := parse_get_shape heq
    simp [parsedActionOK]
  · split at h
    · rename_i p heq
      injection h with h2
      subst h2
      obtain ⟨w, ws, rfl⟩ := parse_put_shape heq
      simp [parsedActionOK]
    · split at h
      · rename_i p heq
        injection h with h2
        subst h2
        obtain ⟨w, ws, rfl⟩ := parse_del_shape heq
        simp [parsedActionOK]
      · split at h
        · rename_i p heq
          injection h with h2
          subst h2
          obtain ⟨w, ws, rfl⟩ := parse_create_shape heq
          simp [parsedActionOK]
        · rw [parse_list_shape h]
          trivial

theorem from_str_action_ok {s : List Char} {t : TezosAuthorizationString}
    (h : TezosAuthorizationString.from_str s = some t) :
    parsedActionOK t.action := by
  unfold TezosAuthorizationString.from_str at h
  split at h
  · cases h
  · split at h
    · cases h
    · split at h
      · cases h
      · split at h
        · cases h
        · split at h
          · cases h
          · split at h
            · cases h
            · split at h
              · cases h
              · split at h
                · cases h
                · rename_i r7 act hact
                  split at h
                  · cases h
                  · split at h
                    · cases h
                    · injection h with h2
                      subst h2
                      exact parse_action_ok hact

/-- C5: serialize returns exactly the canonical string "Tezos Signed
Message: " + domain + " " + timestamp + " " + pk + " " + pkh + " " +
orbit.to_string() + " " + action string, where the action string is LIST,
or the verb GET/PUT/DEL/CREATE followed by a space and the items joined by
single spaces; the signature does not appear (the statement holds for
every signature field sg). -/
theorem serialize_canonical_format :
    ∀ (sg d pk kh ts : List Char) (ob : OrbitId) (a : Action),
      TezosAuthorizationString.serialize ⟨sg, d, pk, kh, ts, ob, a⟩ =
        "Tezos Signed Message: ".toList ++ d ++ sp :: ts ++ sp :: pk ++
          sp :: kh ++ sp :: OrbitId.toStr ob ++ sp ::
          (match a with
            | Action.List => "LIST".toList
            | Action.Get c => "GET".toList ++ sp :: joinSpace c
            | Action.Put c => "PUT".toList ++ sp :: joinSpace c
            | Action.Del c => "DEL".toList ++ sp :: joinSpace c
            | Action.Create c => "CREATE".toList ++ sp :: joinSpace c) := by
  intro sg d pk kh ts ob a
  cases a <;> rfl

/-- C9: the parser does not require field values to be non-empty: on an
input with two consecutive spaces after the fixed prefix the domain parses
as the empty string, and on an input ending in a single space after the
action the signature parses as the empty string. -/
theorem parser_allows_empty_fields :
    TezosAuthorizationString.from_str
        ("Tezos Signed Message:  ts pk pkh ob PUT x ".toList) =
      some ⟨[], [], "pk".toList, "pkh".toList, "ts".toList, ⟨"ob".toList⟩,
        Action.Put ["x".toList]⟩ := by
  rfl

/-- C2, evaluated at a failing input: the claim that parsing the Display
string of a valid token always recovers the token fails for a token whose
action is List.  parse_list propagates the matched tag text "LIST" as the
remaining input (the source destructures the nom pair the wrong way
round), so the space expected after the action is never found and the
Display string of exListToken does not parse at all; the second conjunct
exhibits the swapped remainder directly. -/
theorem list_token_display_not_reparsed :
    TezosAuthorizationString.from_str
        (TezosAuthorizationString.display exListToken) = none ∧
    parse_action ("LIST sig".toList) = some ("LIST".toList, Action.List) := by
  exact ⟨rfl, rfl⟩

/-- C6: serializing a Get/Put/Del/Create action with an empty item
sequence produces a wire string that does not parse back into the same
action: any successfully parsed token carries at least one item in a
content action, so the parse either fails or yields a different action. -/
theorem empty_payload_not_reparsed :
    ∀ t : TezosAuthorizationString, emptyPayload t.action →
      ∀ u, TezosAuthorizationString.from_str
          (TezosAuthorizationString.display t) = some u →
        u.action ≠ t.action := by
  intro t h u hu heq
  have hok := from_str_action_ok hu
  rw [heq] at hok
  cases hact : t.action with
  | List => rw [hact] at h; exact h
  | Get c => rw [hact] at h hok; exact hok h
  | Put c => rw [hact] at h hok; exact hok h
  | Del c => rw [hact] at h hok; exact hok h
  | Create c => rw [hact] at h hok; exact hok h

/-- C6 witness: the concrete empty-payload Put token is read back with one
empty item instead of an empty payload. -/
theorem empty_payload_not_reparsed_witness :
    exEmptyPutParsed.action ≠ exEmptyPut.action :=
  empty_payload_not_reparsed exEmptyPut rfl exEmptyPutParsed rfl

theorem parse_action_none {a : List Char}
    (h : ∀ kw ∈ [kwGET, kwPUT, kwDEL, kwCREATE, kwLIST], ∀ r, a ≠ kw ++ r) :
    parse_action a = none := by
  have h1 := tagP_none_of_no_split (h kwGET (by simp))
  have h2 := tagP_none_of_no_split (h kwPUT (by simp))
  have h3 := tagP_none_of_no_split (h kwDEL (by simp))
  have h4 := tagP_none_of_no_split (h kwCREATE (by simp))
  have h5 := tagP_none_of_no_split (h kwLIST (by simp))
  simp [parse_action, parse_get, parse_put, parse_del, parse_create,
    parse_list, h1, h2, h3, h4, h5]

theorem pa_get_no_items {tail : List Char} (h : space_delimit tail = none) :
    parse_action (kwGET ++ tail) = none := by
  have h2 : tagP kwPUT (kwGET ++ tail) = none := tagP_ne_head (by decide)
  have h3 : tagP kwDEL (kwGET ++ tail) = none := tagP_ne_head (by decide)
  have h4 : tagP kwCREATE (kwGET ++ tail) = none := tagP_ne_head (by decide)
  have h5 : tagP kwLIST (kwGET ++ tail) = none := tagP_ne_head (by decide)
  simp [parse_action, parse_get, parse_put, parse_del, parse_create,
    parse_list, tagP_self_append, manySD_none _ h, h2, h3, h4, h5]

theorem pa_put_no_items {tail : List Char} (h : space_delimit tail = none) :
    parse_action (kwPUT ++ tail) = none := by
  have h1 : tagP kwGET (kwPUT ++ tail) = none := tagP_ne_head (by decide)
  have h3 : tagP kwDEL (kwPUT ++ tail) = none := tagP_ne_head (by decide)
  have h4 : tagP kwCREATE (kwPUT ++ tail) = none := tagP_ne_head (by decide)
  have h5 : tagP kwLIST (kwPUT ++ tail) = none := tagP_ne_head (by decide)
  simp [parse_action, parse_get, parse_put, parse_del, parse_create,
    parse_list, tagP_self_append, manySD_none _ h, h1, h3, h4, h5]

theorem pa_del_no_items {tail : List Char} (h : space_delimit tail = none) :
    parse_action (kwDEL ++ tail) = none := by
  have h1 : tagP kwGET (kwDEL ++ tail) = none := tagP_ne_head (by decide)
  have h2 : tagP kwPUT (kwDEL ++ tail) = none := tagP_ne_head (by decide)
  have h4 : tagP kwCREATE (kwDEL ++ tail) = none := tagP_ne_head (by decide)
  have h5 : tagP kwLIST (kwDEL ++ tail) = none := tagP_ne_head (by decide)
  simp [parse_action, parse_get, parse_put, parse_del, parse_create,
    parse_list, tagP_self_append, manySD_none _ h, h1, h2, h4, h5]

theorem pa_create_no_items {tail : List Char} (h : space_delimit tail = none) :
    parse_action (kwCREATE ++ tail) = none := by
  have h1 : tagP kwGET (kwCREATE ++ tail) = none := tagP_ne_head (by decide)
  have h2 : tagP kwPUT (kwCREATE ++ tail) = none := tagP_ne_head (by decide)
  have h3 : tagP kwDEL (kwCREATE ++ tail) = none := tagP_ne_head (by decide)
  have h5 : tagP kwLIST (kwCREATE ++ tail) = none := tagP_ne_head (by decide)
  simp [parse_action, parse_get, parse_put, parse_del, parse_create,
    parse_list, tagP_self_append, manySD_none _ h, h1, h2, h3, h5]

/-- C4: parsing fails when the input does not begin with the literal
prefix "Tezos Signed Message:"; when, after the five space-delimited
fields, the text in the action position begins with none of the keywords
GET, PUT, DEL, CREATE, LIST; and when a content action keyword is followed
by zero space-delimited item tokens (the remainder admits no further
space-delimited word, so many1 fails). -/
theorem parse_rejects_malformed :
    (∀ s : List Char, (∀ r, s ≠ msgTag ++ r) →
      TezosAuthorizationString.from_str s = none) ∧
    (∀ d ts pk kh ob a : List Char,
      sp ∉ d → sp ∉ ts → sp ∉ pk → sp ∉ kh → sp ∉ ob →
      (∀ kw ∈ [kwGET, kwPUT, kwDEL, kwCREATE, kwLIST], ∀ r, a ≠ kw ++ r) →
      TezosAuthorizationString.from_str
        (msgTag ++ sp :: (d ++ sp :: (ts ++ sp :: (pk ++ sp ::
          (kh ++ sp :: (ob ++ sp :: a)))))) = none) ∧
    (∀ d ts pk kh ob tail : List Char,
      ∀ V ∈ [kwGET, kwPUT, kwDEL, kwCREATE],
      sp ∉ d → sp ∉ ts → sp ∉ pk → sp ∉ kh → sp ∉ ob →
      space_delimit tail = none →
      TezosAuthorizationString.from_str
        (msgTag ++ sp :: (d ++ sp :: (ts ++ sp :: (pk ++ sp ::
          (kh ++ sp :: (ob ++ sp :: (V ++ tail))))))) = none) := by
  refine ⟨?_, ?_, ?_⟩
  · intro s h
    simp [TezosAuthorizationString.from_str, tagP_none_of_no_split h]
  · intro d ts pk kh ob a hd hts hpk hkh hob ha
    rw [from_str_fields a hd hts hpk hkh hob, parse_action_none ha]
  · intro d ts pk kh ob tail V hV hd hts hpk hkh hob htail
    rw [from_str_fields (V ++ tail) hd hts hpk hkh hob]
    simp only [List.mem_cons, List.not_mem_nil, or_false] at hV
    rcases hV with h | h | h | h <;> rw [h]
    · rw [pa_get_no_items htail]
    · rw [pa_put_no_items htail]
    · rw [pa_del_no_items htail]
    · rw [pa_create_no_items htail]

/-- C4 witness: the empty input lacks the prefix; a composed input with
action text FOO x y matches no keyword; a composed input with GET followed
only by the signature has zero items; all three fail to parse. -/
theorem parse_rejects_malformed_witness :
    TezosAuthorizationString.from_str [] = none ∧
    TezosAuthorizationString.from_str
      (msgTag ++ sp :: ("d".toList ++ sp :: ("ts".toList ++ sp ::
        ("pk".toList ++ sp :: ("kh".toList ++ sp ::
          ("ob".toList ++ sp :: "FOO x y".toList)))))) = none ∧
    TezosAuthorizationString.from_str
      (msgTag ++ sp :: ("d".toList ++ sp :: ("ts".toList ++ sp ::
        ("pk".toList ++ sp :: ("kh".toList ++ sp ::
          ("ob".toList ++ sp :: (kwGET ++ " sig".toList))))))) = none := by
  refine ⟨parse_rejects_malformed.1 [] ?_,
    parse_rejects_malformed.2.1 _ _ _ _ _ _ (by decide) (by decide)
      (by decide) (by decide) (by decide) ?_,
    parse_rejects_malformed.2.2 _ _ _ _ _ _ kwGET (by simp) (by decide)
      (by decide) (by decide) (by decide) (by decide) (by decide)⟩
  · intro r h
    have hl := congrArg List.length h
    simp only [List.length_nil, List.length_append] at hl
    have h21 : msgTag.length = 21 := by decide
    omega
  · intro kw hkw r
    fin_cases hkw <;> exact ne_append_of_head (by decide)

/-- C3: authorize builds the requester DID URL from the fixed prefix
did:pkh:tz: and the token key-hash with fragment TezosMethod2021; when it
is absent from the manifest invoker set the result is the not-authorized
error for every capability (so the verifier is never consulted), and when
it is present the result is exactly verify. -/
theorem authorize_controller_gate :
    ∀ (cap : SigCap) (m : Manifest) (t : TezosAuthorizationString),
      ((⟨"did:pkh:tz:".toList ++ t.pkh, [], none,
          some "TezosMethod2021".toList⟩ : DIDURL) ∉ m.invokers →
        Manifest.authorize m cap t = Except.error Err.notAuthorized) ∧
      ((⟨"did:pkh:tz:".toList ++ t.pkh, [], none,
          some "TezosMethod2021".toList⟩ : DIDURL) ∈ m.invokers →
        Manifest.authorize m cap t = TezosAuthorizationString.verify cap t) := by
  intro cap m t
  constructor
  · intro h
    simp only [Manifest.authorize]
    rw [if_pos h]
  · intro h
    simp only [Manifest.authorize]
    rw [if_neg (fun hn => hn h)]

/-- C3 witness: with an empty invoker set authorize denies exToken; with
the derived requester present it returns exactly the verify result. -/
theorem authorize_controller_gate_witness :
    Manifest.authorize ⟨[]⟩ capOkNoAlg exToken =
        Except.error Err.notAuthorized ∧
    Manifest.authorize ⟨[exRequester]⟩ capOkNoAlg exToken =
        TezosAuthorizationString.verify capOkNoAlg exToken :=
  ⟨(authorize_controller_gate capOkNoAlg ⟨[]⟩ exToken).1 (by decide),
    (authorize_controller_gate capOkNoAlg ⟨[exRequester]⟩ exToken).2 (by decide)⟩

/-- C7: the header extraction returns success exactly when the
Authorization header is present and parses; an absent header or a parse
failure yields the forward outcome, and no input yields a hard failure. -/
theorem from_request_forward_policy :
    ∀ h : Option (List Char),
      (∀ s t, h = some s → TezosAuthorizationString.from_str s = some t →
        from_request h = Outcome.success t) ∧
      (∀ t, from_request h = Outcome.success t →
        ∃ s, h = some s ∧ TezosAuthorizationString.from_str s = some t) ∧
      (h = none → from_request h = Outcome.forward) ∧
      (∀ s, h = some s → TezosAuthorizationString.from_str s = none →
        from_request h = Outcome.forward) ∧
      (∀ e, from_request h ≠ Outcome.failure e) := by
  intro h
  refine ⟨?_, ?_, ?_, ?_, ?_⟩
  · intro s t hs hp
    subst hs
    simp [from_request, hp]
  · intro t hsucc
    cases h with
    | none => simp [from_request] at hsucc
    | some s =>
      cases hp : TezosAuthorizationString.from_str s with
      | none => simp [from_request, hp] at hsucc
      | some u =>
        simp [from_request, hp] at hsucc
        exact ⟨s, rfl, by rw [hp, hsucc]⟩
  · intro hn
    subst hn
    rfl
  · intro s hs hp
    subst hs
    simp [from_request, hp]
  · intro e hfail
    cases h with
    | none => simp [from_request] at hfail
    | some s =>
      cases hp : TezosAuthorizationString.from_str s with
      | none => rw [show from_request (some s) = Outcome.forward from by
          simp [from_request, hp]] at hfail; cases hfail
      | some u => rw [show from_request (some s) = Outcome.success u from by
          simp [from_request, hp]] at hfail; cases hfail

/-- C7 witness: a present, well-formed header succeeds with the parsed
token; an absent header forwards. -/
theorem from_request_forward_policy_witness :
    from_request (some ("Tezos Signed Message:  ts pk pkh ob PUT x ".toList)) =
      Outcome.success ⟨[], [], "pk".toList, "pkh".toList, "ts".toList,
        ⟨"ob".toList⟩, Action.Put ["x".toList]⟩ ∧
    from_request none = Outcome.forward :=
  ⟨(from_request_forward_policy _).1 _ _ rfl (by rfl),
    (from_request_forward_policy none).2.2.1 rfl⟩

/-- C10: when key derivation succeeds with a key that carries no
algorithm and signature decoding succeeds, verify returns the Invalid
Signature Scheme error, independently of the byte-verification capability
(which is therefore never consulted). -/
theorem verify_missing_algorithm :
    ∀ (kf : List Char → Except Err JWK)
      (dc : List Char → Except Err (List Char × List Nat))
      (vb vb2 : List Char → List Nat → JWK → List Nat → Except Err Unit)
      (t : TezosAuthorizationString) (key : JWK)
      (meta : List Char) (sg : List Nat),
      kf t.pk = Except.ok key → dc t.sig = Except.ok (meta, sg) →
      key.algorithm = none →
      TezosAuthorizationString.verify ⟨kf, dc, vb⟩ t =
          Except.error Err.invalidSignatureScheme ∧
      TezosAuthorizationString.verify ⟨kf, dc, vb⟩ t =
          TezosAuthorizationString.verify ⟨kf, dc, vb2⟩ t := by
  intro kf dc vb vb2 t key meta sg hkf hdc halg
  constructor <;>
    simp only [TezosAuthorizationString.verify, hkf, hdc, halg]

/-- C10 witness: with the concrete no-algorithm capabilities and the
concrete token, verify reports the invalid-scheme error whatever the byte
verifier would have answered. -/
theorem verify_missing_algorithm_witness :
    TezosAuthorizationString.verify capOkNoAlg exToken =
        Except.error Err.invalidSignatureScheme ∧
    TezosAuthorizationString.verify capOkNoAlg exToken =
        TezosAuthorizationString.verify capRejectNoAlg exToken :=
  verify_missing_algorithm (fun _ => Except.ok ⟨none⟩)
    (fun _ => Except.ok ([], [])) (fun _ _ _ _ => Except.ok ())
    (fun _ _ _ _ => Except.error Err.signatureMismatch)
    exToken ⟨none⟩ [] [] rfl rfl rfl

theorem hexVal_hexDigit {d : Nat} (h : d < 16) :
    hexVal (hexDigit d) = some d := by
  interval_cases d <;> decide

theorem hexDecode_cons2 {c1 c2 : Char} {x y : Nat} {rest : List Char}
    {tl : List Nat} (h1 : hexVal c1 = some x) (h2 : hexVal c2 = some y)
    (h3 : hexDecode rest = some tl) :
    hexDecode (c1 :: c2 :: rest) = some ((16 * x + y) :: tl) := by
  simp [hexDecode, h1, h2, h3]

theorem hexEncode_append (a b : List Nat) :
    hexEncode (a ++ b) = hexEncode a ++ hexEncode b := by
  induction a with
  | nil => rfl
  | cons x xs ih => simp [hexEncode, ih]

theorem hexDecode_hexEncode {bs : List Nat} (h : ∀ x ∈ bs, x < 256) :
    hexDecode (hexEncode bs) = some bs := by
  induction bs with
  | nil => rfl
  | cons x xs ih =>
    have hx : x < 256 := h x (List.mem_cons_self x xs)
    have hdiv : x / 16 < 16 := by
      rw [Nat.div_lt_iff_lt_mul (by norm_num)]
      omega
    have hmod : x % 16 < 16 := Nat.mod_lt x (by norm_num)
    have ihh := ih (fun y hy => h y (List.mem_cons_of_mem _ hy))
    rw [show hexEncode (x :: xs) =
        hexDigit (x / 16) :: hexDigit (x % 16) :: hexEncode xs from rfl]
    rw [hexDecode_cons2 (hexVal_hexDigit hdiv) (hexVal_hexDigit hmod) ihh]
    rw [Nat.div_add_mod x 16]

theorem beBytes_length (k n : Nat) : (beBytes k n).length = k := by
  induction k generalizing n with
  | zero => rfl
  | succ k ih => simp [beBytes, ih]

theorem beBytes_lt (k n : Nat) : ∀ x ∈ beBytes k n, x < 256 := by
  induction k generalizing n with
  | zero => intro x hx; cases hx
  | succ k ih =>
    intro x hx
    rw [show beBytes (k + 1) n = beBytes k (n / 256) ++ [n % 256] from rfl] at hx
    rcases List.mem_append.mp hx with hmem | hmem
    · exact ih (n / 256) x hmem
    · rw [List.mem_singleton.mp hmem]
      exact Nat.mod_lt n (by norm_num)

theorem beBytes_four (n : Nat) :
    beBytes 4 n = [n / 16777216 % 256, n / 65536 % 256, n / 256 % 256,
      n % 256] := by
  show (((([] : List Nat) ++ [n / 256 / 256 / 256 % 256]) ++
    [n / 256 / 256 % 256]) ++ [n / 256 % 256]) ++ [n % 256] = _
  simp only [List.nil_append, List.singleton_append, List.cons_append,
    List.nil_append, Nat.div_div_eq_div_mul]

theorem hexPad_two_mul (k n : Nat) :
    hexPad (2 * k) n = hexEncode (beBytes k n) := by
  induction k generalizing n with
  | zero => rfl
  | succ k ih =>
    have h2 : 2 * (k + 1) = 2 * k + 1 + 1 := by ring
    rw [h2, hexPad, hexPad, ih (n / 16 / 16)]
    rw [show beBytes (k + 1) n = beBytes k (n / 256) ++ [n % 256] from rfl]
    rw [hexEncode_append]
    rw [show hexEncode [n % 256] =
      [hexDigit (n % 256 / 16), hexDigit (n % 256 % 16)] from rfl]
    rw [Nat.div_div_eq_div_mul]
    norm_num
    congr 1
    rw [show (256 : Nat) = 16 * 16 from rfl, Nat.mod_mul_right_div_self]

theorem hexPad_zero (k : Nat) : hexPad k 0 = List.replicate k '0' := by
  induction k with
  | zero => rfl
  | succ k ih =>
    rw [hexPad, Nat.zero_div, ih]
    rw [show hexDigit (0 % 16) = '0' from rfl]
    rw [List.replicate_succ']

theorem natToHexAux_pad :
    ∀ f n k : Nat, n ≤ f → n < 16 ^ k →
      hexPad k n =
        List.replicate (k - (natToHexAux f n).length) '0' ++ natToHexAux f n := by
  intro f
  induction f with
  | zero =>
    intro n k hf hk
    interval_cases n
    simp [natToHexAux, hexPad_zero]
  | succ f ih =>
    intro n k hf hk
    by_cases h0 : n = 0
    · subst h0
      simp [natToHexAux, hexPad_zero]
    · cases k with
      | zero =>
        rw [pow_zero] at hk
        omega
      | succ k =>
        have hdivle : n / 16 ≤ f := by
          have := Nat.div_lt_self (Nat.pos_of_ne_zero h0) (by norm_num : 1 < 16)
          omega
        have hdivlt : n / 16 < 16 ^ k := by
          rw [Nat.div_lt_iff_lt_mul (by norm_num : (0 : Nat) < 16)]
          calc n < 16 ^ (k + 1) := hk
            _ = 16 ^ k * 16 := by rw [pow_succ]
        have ihh := ih (n / 16) k hdivle hdivlt
        rw [show natToHexAux (f + 1) n =
          natToHexAux f (n / 16) ++ [hexDigit (n % 16)] from by
            simp [natToHexAux, h0]]
        rw [hexPad, ihh, List.length_append, List.length_singleton]
        rw [show k + 1 - ((natToHexAux f (n / 16)).length + 1) =
          k - (natToHexAux f (n / 16)).length from by omega]
        simp [List.append_assoc]

theorem toHexPad8_eq_hexPad {n : Nat} (h : n < 4294967296) :
    toHexPad8 n = hexPad 8 n := by
  have hpow : n < 16 ^ 8 := by
    have h16 : (16 : Nat) ^ 8 = 4294967296 := by norm_num
    omega
  unfold toHexPad8 natToHex
  exact (natToHexAux_pad n n 8 (le_refl n) hpow).symm

/-- The heart of claims C1 and C8: under the length precondition the
hex-format round-trip in encode_string succeeds and produces the tag
bytes, the big-endian length and the payload. -/
theorem encode_string_spec {b : List Nat} (hlen : b.length < 4294967296)
    (hb : ∀ x ∈ b, x < 256) :
    encode_string b = some (5 :: 1 :: (beBytes 4 b.length ++ b)) := by
  have h8 : toHexPad8 b.length = hexEncode (beBytes 4 b.length) := by
    rw [toHexPad8_eq_hexPad hlen]
    have := hexPad_two_mul 4 b.length
    norm_num at this
    exact this
  rw [encode_string, h8, List.append_assoc, ← hexEncode_append]
  rw [show "0501".toList = '0' :: '5' :: '0' :: '1' :: [] from rfl]
  rw [show ('0' :: '5' :: '0' :: '1' :: []) ++
    hexEncode (beBytes 4 b.length ++ b) =
    '0' :: '5' :: '0' :: '1' :: hexEncode (beBytes 4 b.length ++ b) from rfl]
  have hall : ∀ x ∈ beBytes 4 b.length ++ b, x < 256 := by
    intro x hx
    rcases List.mem_append.mp hx with hmem | hmem
    · exact beBytes_lt 4 b.length x hmem
    · exact hb x hmem
  have hv0 : hexVal '0' = some 0 := by decide
  have hv5 : hexVal '5' = some 5 := by decide
  have hv1 : hexVal '1' = some 1 := by decide
  rw [hexDecode_cons2 hv0 hv5 (hexDecode_cons2 hv0 hv1
    (hexDecode_hexEncode hall))]

theorem char_toNat_lt (c : Char) : c.toNat < 1114112 := by
  have h : c.val.toNat < 55296 ∨
      (57344 ≤ c.val.toNat ∧ c.val.toNat < 1114112) := c.valid
  have he : c.toNat = c.val.toNat := rfl
  omega

theorem utf8Char_lt (c : Char) : ∀ x ∈ utf8Char c, x < 256 := by
  intro x hx
  have hc := char_toNat_lt c
  simp only [utf8Char] at hx
  split_ifs at hx with h1 h2 h3
  · have := List.mem_singleton.mp hx
    omega
  · simp only [List.mem_cons, List.mem_singleton, List.not_mem_nil,
      or_false] at hx
    have hd : c.toNat / 64 < 32 := by
      rw [Nat.div_lt_iff_lt_mul (by norm_num : (0 : Nat) < 64)]
      omega
    have hm : c.toNat % 64 < 64 := Nat.mod_lt _ (by norm_num)
    rcases hx with rfl | rfl <;> omega
  · simp only [List.mem_cons, List.mem_singleton, List.not_mem_nil,
      or_false] at hx
    have hd : c.toNat / 4096 < 16 := by
      rw [Nat.div_lt_iff_lt_mul (by norm_num : (0 : Nat) < 4096)]
      omega
    have hm1 : c.toNat / 64 % 64 < 64 := Nat.mod_lt _ (by norm_num)
    have hm2 : c.toNat % 64 < 64 := Nat.mod_lt _ (by norm_num)
    rcases hx with rfl | rfl | rfl <;> omega
  · simp only [List.mem_cons, List.mem_singleton, List.not_mem_nil,
      or_false] at hx
    have hd : c.toNat / 262144 < 5 := by
      rw [Nat.div_lt_iff_lt_mul (by norm_num : (0 : Nat) < 262144)]
      omega
    have hm1 : c.toNat / 4096 % 64 < 64 := Nat.mod_lt _ (by norm_num)
    have hm2 : c.toNat / 64 % 64 < 64 := Nat.mod_lt _ (by norm_num)
    have hm3 : c.toNat % 64 < 64 := Nat.mod_lt _ (by norm_num)
    rcases hx with rfl | rfl | rfl | rfl <;> omega

theorem utf8Bytes_lt (s : List Char) : ∀ x ∈ utf8Bytes s, x < 256 := by
  intro x hx
  simp only [utf8Bytes] at hx
  rcases List.mem_flatten.mp hx with ⟨l, hl, hxl⟩
  rcases List.mem_map.mp hl with ⟨c, _, rfl⟩
  exact utf8Char_lt c x hxl

/-- C1: for every string whose UTF-8 byte length is below 2^32, the
bytes-to-sign encoding used by serialize_for_verification equals 0x05,
0x01, the four-byte big-endian byte length, then the UTF-8 bytes. -/
theorem encode_string_envelope :
    ∀ s : List Char, (utf8Bytes s).length < 4294967296 →
      encode_string (utf8Bytes s) =
        some (5 :: 1 :: ((utf8Bytes s).length / 16777216 ::
          (utf8Bytes s).length / 65536 % 256 ::
          (utf8Bytes s).length / 256 % 256 ::
          (utf8Bytes s).length % 256 :: utf8Bytes s)) := by
  intro s h
  rw [encode_string_spec h (utf8Bytes_lt s), beBytes_four]
  have hfirst : (utf8Bytes s).length / 16777216 % 256 =
      (utf8Bytes s).length / 16777216 := by
    apply Nat.mod_eq_of_lt
    rw [Nat.div_lt_iff_lt_mul (by norm_num : (0 : Nat) < 16777216)]
    omega
  rw [hfirst]
  rfl

/-- C1 witness: the fixture — the envelope of the canonical string
"message" is 05 01 00 00 00 07 followed by the ASCII bytes of message. -/
theorem encode_string_envelope_witness :
    (utf8Bytes ("message".toList)).length < 4294967296 ∧
    encode_string (utf8Bytes ("message".toList)) =
      some [5, 1, 0, 0, 0, 7, 109, 101, 115, 115, 97, 103, 101] := by
  constructor
  · decide
  · rw [encode_string_envelope ("message".toList) (by decide)]
    decide

/-- C8: under the byte-length precondition encode_string cannot panic —
the internal hex round-trip succeeds — and the result is six bytes longer
than the payload. -/
theorem encode_string_total_length :
    ∀ s : List Char, (utf8Bytes s).length < 4294967296 →
      encode_string (utf8Bytes s) ≠ none ∧
      ∀ out, encode_string (utf8Bytes s) = some out →
        out.length = (utf8Bytes s).length + 6 := by
  intro s h
  have hspec := encode_string_spec h (utf8Bytes_lt s)
  constructor
  · rw [hspec]
    simp
  · intro out hout
    rw [hspec] at hout
    injection hout with h2
    subst h2
    simp [beBytes_length]
    omega

/-- C8 witness: the envelope of "message" exists and is thirteen bytes,
seven plus six. -/
theorem encode_string_total_length_witness :
    encode_string (utf8Bytes ("message".toList)) ≠ none ∧
    ([5, 1, 0, 0, 0, 7, 109, 101, 115, 115, 97, 103, 101] : List Nat).length =
      (utf8Bytes ("message".toList)).length + 6 :=
  ⟨(encode_string_total_length ("message".toList) (by decide)).1,
    (encode_string_total_length ("message".toList) (by decide)).2 _ (by decide)⟩

end Kepler
